import Mathlib

/-
Verification of the offline-first synchronization and caching layer of the
gamefaqs-reader application: the local cache store (src/database/offlineCache.ts),
the pending-change queue, the sync dispatcher and orchestrator
(src/services/SyncManager.ts), and the connectivity-aware write path
(src/hooks/mutations/useBookmarkMutations.ts, useNoteMutations.ts).

The embedding is shallow: the SQLite tables become Lean lists of row records,
the JavaScript JSON payloads become an inductive value type with an executable
stringify and parse (JSON.stringify / JSON.parse restricted to the value
universe the queue actually stores: null, booleans, integer numbers, strings,
arrays, objects -- floating point numbers are outside the model), timestamps
(Date.now()) become explicit Nat parameters, and the remote API becomes an
explicit function argument returning Except.
-/

/-- Model of the JSON-serializable JavaScript values that flow through the
sync-queue payload column. Numbers are modelled as integers (the payloads the
app stores carry character positions and ids; IEEE floats are outside the
embedding). An object models a JavaScript record: key order is significant,
keys are unique in any value that originates from a real JS object. -/
inductive Json where
  | null
  | bool (b : Bool)
  | num (n : Int)
  | str (s : String)
  | arr (elems : List Json)
  | obj (fields : List (String × Json))

/-- Property access payload.k of JS: some value when the key is present on an
object, none (undefined) otherwise. -/
def Json.getField : Json → String → Option Json
  | .obj fs, k => (fs.find? (fun kv => kv.1 == k)).map Prod.snd
  | _, _ => none

/-- Well-formedness: the value could have come from an actual JavaScript
object graph, i.e. every object level has pairwise-distinct keys. -/
inductive Json.WF : Json → Prop where
  | null : Json.WF Json.null
  | bool (b : Bool) : Json.WF (Json.bool b)
  | num (n : Int) : Json.WF (Json.num n)
  | str (s : String) : Json.WF (Json.str s)
  | arr (es : List Json) (h : ∀ e ∈ es, Json.WF e) : Json.WF (Json.arr es)
  | obj (fs : List (String × Json)) (hk : (fs.map Prod.fst).Nodup)
      (hv : ∀ kv ∈ fs, Json.WF kv.2) : Json.WF (Json.obj fs)

/-- The character for a decimal digit d < 10. -/
def digitChar (d : Nat) : Char := Char.ofNat (48 + d)

/-- Little-endian decimal digits of n (empty for 0); fuel-indexed so the
kernel can evaluate it. -/
def natDigitsLE : Nat → Nat → List Nat
  | 0, _ => []
  | fuel+1, n => if n = 0 then [] else n % 10 :: natDigitsLE fuel (n / 10)

/-- Decimal rendering of a natural number, as JavaScript renders it in a
template literal or in JSON.stringify. -/
def natChars (n : Nat) : List Char :=
  if n = 0 then ['0'] else ((natDigitsLE (n+1) n).reverse.map digitChar)

/-- Decimal rendering of an integer. -/
def intChars (n : Int) : List Char :=
  if n < 0 then '-' :: natChars n.natAbs else natChars n.natAbs

/-- Lower-case hexadecimal digit for d < 16. -/
def hexDigitChar (d : Nat) : Char :=
  if d < 10 then Char.ofNat (48 + d) else Char.ofNat (87 + d)

/-- The escape sequence JSON.stringify emits for one character of a string:
quote and backslash are escaped, the named control escapes are used where they
exist, remaining control characters become u-escapes, everything else is
emitted verbatim. -/
def escapeChar (c : Char) : List Char :=
  if c = '"' then ['\\', '"']
  else if c = '\\' then ['\\', '\\']
  else if c = '\x08' then ['\\', 'b']
  else if c = '\x0c' then ['\\', 'f']
  else if c = '\n' then ['\\', 'n']
  else if c = '\r' then ['\\', 'r']
  else if c = '\t' then ['\\', 't']
  else if c.toNat < 32 then
    ['\\', 'u', '0', '0', hexDigitChar (c.toNat / 16), hexDigitChar (c.toNat % 16)]
  else [c]

/-- A JSON string literal: quote, escaped body, quote. -/
def strChars (s : String) : List Char :=
  '"' :: (s.data.map escapeChar).flatten ++ ['"']

mutual

/-- JSON.stringify, producing the character list of the serialized form. -/
def jsonChars : Json → List Char
  | .null => ("null").data
  | .bool true => ("true").data
  | .bool false => ("false").data
  | .num n => intChars n
  | .str s => strChars s
  | .arr es => '[' :: arrChars es ++ [']']
  | .obj fs => '\x7b' :: objChars fs ++ ['\x7d']

/-- Comma-separated serialized array elements. -/
def arrChars : List Json → List Char
  | [] => []
  | [x] => jsonChars x
  | x :: y :: rest => jsonChars x ++ ',' :: arrChars (y :: rest)

/-- Comma-separated serialized object members. -/
def objChars : List (String × Json) → List Char
  | [] => []
  | [(k, v)] => strChars k ++ ':' :: jsonChars v
  | (k, v) :: f :: rest => strChars k ++ ':' :: jsonChars v ++ ',' :: objChars (f :: rest)

end

/-- JSON.stringify of a payload value. -/
def jsonStringify (v : Json) : String := String.mk (jsonChars v)

/-- Decimal digit test for parsing. -/
def isDigitChar (c : Char) : Bool := decide (48 ≤ c.toNat ∧ c.toNat ≤ 57)

/-- Numeric value of a decimal digit character. -/
def digitVal (c : Char) : Nat := c.toNat - 48

/-- Greedily consume decimal digits, accumulating their value. -/
def takeDigits : List Char → Nat → Nat × List Char
  | [], acc => (acc, [])
  | c :: cs, acc =>
    if isDigitChar c then takeDigits cs (acc * 10 + digitVal c) else (acc, c :: cs)

/-- True when the character list does not begin with a decimal digit (so a
greedy number parse to its left cannot swallow into it). -/
def headNotDigit : List Char → Bool
  | [] => true
  | c :: _ => !isDigitChar c

/-- Parse an optionally negated decimal integer. -/
def parseNumFrom : List Char → Option (Int × List Char)
  | [] => none
  | c :: cs =>
    if c = '-' then
      if headNotDigit cs then none
      else some (-((takeDigits cs 0).1 : Int), (takeDigits cs 0).2)
    else if isDigitChar c then
      some (((takeDigits (c :: cs) 0).1 : Int), (takeDigits (c :: cs) 0).2)
    else none

/-- Value of a hexadecimal digit character, if it is one. -/
def hexVal (c : Char) : Option Nat :=
  if 48 ≤ c.toNat ∧ c.toNat ≤ 57 then some (c.toNat - 48)
  else if 97 ≤ c.toNat ∧ c.toNat ≤ 102 then some (c.toNat - 87)
  else if 65 ≤ c.toNat ∧ c.toNat ≤ 70 then some (c.toNat - 55)
  else none

/-- Parse the body of a JSON string literal (after the opening quote), with an
accumulator of characters read so far in reverse. Fuel-indexed; one unit of
fuel is spent per produced character, so fuel exceeding the source length is
always enough. -/
def parseStringBody : Nat → List Char → List Char → Option (String × List Char)
  | 0, _, _ => none
  | fuel+1, acc, cs =>
    match cs with
    | [] => none
    | c :: rest =>
      if c = '"' then some (String.mk acc.reverse, rest)
      else if c = '\\' then
        match rest with
        | [] => none
        | e :: rest2 =>
          if e = '"' then parseStringBody fuel ('"' :: acc) rest2
          else if e = '\\' then parseStringBody fuel ('\\' :: acc) rest2
          else if e = '/' then parseStringBody fuel ('/' :: acc) rest2
          else if e = 'b' then parseStringBody fuel ('\x08' :: acc) rest2
          else if e = 'f' then parseStringBody fuel ('\x0c' :: acc) rest2
          else if e = 'n' then parseStringBody fuel ('\n' :: acc) rest2
          else if e = 'r' then parseStringBody fuel ('\r' :: acc) rest2
          else if e = 't' then parseStringBody fuel ('\t' :: acc) rest2
          else if e = 'u' then
            match rest2 with
            | h1 :: h2 :: h3 :: h4 :: rest3 =>
              match hexVal h1, hexVal h2, hexVal h3, hexVal h4 with
              | some a, some b, some c2, some d =>
                parseStringBody fuel (Char.ofNat (((a * 16 + b) * 16 + c2) * 16 + d) :: acc) rest3
              | _, _, _, _ => none
            | _ => none
          else none
      else parseStringBody fuel (c :: acc) rest

/-- Assignment obj[k] = v on a JS object: overwrite in place when the key
exists, append otherwise. -/
def upsertField (k : String) (v : Json) : List (String × Json) → List (String × Json)
  | [] => [(k, v)]
  | (k0, v0) :: fs => if k0 = k then (k0, v) :: fs else (k0, v0) :: upsertField k v fs

/-- Wrap a parsed string literal as a JSON value. -/
def parseStrTok : Option (String × List Char) → Option (Json × List Char)
  | none => none
  | some (s, rest) => some (Json.str s, rest)

/-- Wrap a parsed number as a JSON value. -/
def parseNumTok : Option (Int × List Char) → Option (Json × List Char)
  | none => none
  | some (n, rest) => some (Json.num n, rest)

mutual

/-- JSON.parse on the grammar JSON.stringify emits (no interstitial
whitespace, integer numbers). Fuel-indexed for termination; the top-level
wrapper supplies fuel proportional to the input length, which the round-trip
theorems show is sufficient. -/
def parseVal : Nat → List Char → Option (Json × List Char)
  | 0, _ => none
  | fuel+1, cs =>
    match cs with
    | [] => none
    | c :: rest =>
      if c = 'n' then
        match rest with
        | 'u' :: 'l' :: 'l' :: rest2 => some (Json.null, rest2)
        | _ => none
      else if c = 't' then
        match rest with
        | 'r' :: 'u' :: 'e' :: rest2 => some (Json.bool true, rest2)
        | _ => none
      else if c = 'f' then
        match rest with
        | 'a' :: 'l' :: 's' :: 'e' :: rest2 => some (Json.bool false, rest2)
        | _ => none
      else if c = '"' then
        parseStrTok (parseStringBody (rest.length + 1) [] rest)
      else if c = '[' then
        match rest with
        | ']' :: rest2 => some (Json.arr [], rest2)
        | _ => parseElems fuel rest []
      else if c = '\x7b' then
        match rest with
        | '\x7d' :: rest2 => some (Json.obj [], rest2)
        | _ => parseFields fuel rest []
      else
        parseNumTok (parseNumFrom (c :: rest))

/-- Parse the elements of a non-empty array, after the opening bracket. -/
def parseElems : Nat → List Char → List Json → Option (Json × List Char)
  | 0, _, _ => none
  | fuel+1, cs, acc => parseElemsCont fuel (parseVal fuel cs) acc

/-- Continue an array after one parsed element: comma continues, bracket
closes. -/
def parseElemsCont : Nat → Option (Json × List Char) → List Json → Option (Json × List Char)
  | _, none, _ => none
  | 0, some _, _ => none
  | fuel+1, some (v, rest), acc =>
    match rest with
    | ',' :: rest2 => parseElems fuel rest2 (acc ++ [v])
    | ']' :: rest2 => some (Json.arr (acc ++ [v]), rest2)
    | _ => none

/-- Parse the members of a non-empty object, after the opening brace. -/
def parseFields : Nat → List Char → List (String × Json) → Option (Json × List Char)
  | 0, _, _ => none
  | fuel+1, cs, acc =>
    match cs with
    | '"' :: cs2 => parseFieldsKey fuel (parseStringBody (cs2.length + 1) [] cs2) acc
    | _ => none

/-- Continue an object member after its key string: expect a colon, then the
value. -/
def parseFieldsKey : Nat → Option (String × List Char) → List (String × Json) →
    Option (Json × List Char)
  | _, none, _ => none
  | 0, some _, _ => none
  | fuel+1, some (k, rest), acc =>
    match rest with
    | ':' :: rest2 => parseFieldsVal fuel k (parseVal fuel rest2) acc
    | _ => none

/-- Continue an object after one parsed member (repeated keys overwrite, as
JS property assignment does): comma continues, brace closes. -/
def parseFieldsVal : Nat → String → Option (Json × List Char) → List (String × Json) →
    Option (Json × List Char)
  | _, _, none, _ => none
  | 0, _, some _, _ => none
  | fuel+1, k, some (v, rest), acc =>
    match rest with
    | ',' :: rest2 => parseFields fuel rest2 (upsertField k v acc)
    | '\x7d' :: rest2 => some (Json.obj (upsertField k v acc), rest2)
    | _ => none

end

/-- JSON.parse: succeeds only when the whole input is consumed by one value. -/
def jsonParse (s : String) : Option Json :=
  match parseVal (3 * s.data.length + 3) s.data with
  | some (v, []) => some v
  | _ => none

/-- A row of the downloaded_guides table: the Guide entity columns plus the
downloaded_at timestamp (offlineCache.saveGuide INSERT column list). -/
structure Guide where
  id : String
  title : String
  content : String
  format : String
  file_path : String
  game_id : Option String
  last_read_position : Option Int
  metadata : Option String
  created_at : Nat
  updated_at : Nat
deriving DecidableEq

/-- downloaded_guides row: every Guide column plus downloaded_at. -/
structure GuideRow where
  id : String
  title : String
  content : String
  format : String
  file_path : String
  game_id : Option String
  last_read_position : Option Int
  metadata : Option String
  created_at : Nat
  updated_at : Nat
  downloaded_at : Nat
deriving DecidableEq

/-- The destructuring in offlineCache.getGuide: drop downloaded_at, return
the remaining columns as a plain Guide. -/
def rowToGuide (r : GuideRow) : Guide :=
  { id := r.id, title := r.title, content := r.content, format := r.format,
    file_path := r.file_path, game_id := r.game_id,
    last_read_position := r.last_read_position, metadata := r.metadata,
    created_at := r.created_at, updated_at := r.updated_at }

/-- The INSERT OR REPLACE column values of offlineCache.saveGuide. -/
def guideToRow (g : Guide) (now : Nat) : GuideRow :=
  { id := g.id, title := g.title, content := g.content, format := g.format,
    file_path := g.file_path, game_id := g.game_id,
    last_read_position := g.last_read_position, metadata := g.metadata,
    created_at := g.created_at, updated_at := g.updated_at, downloaded_at := now }

/-- A sync_queue row: AUTOINCREMENT id, type, action, the payload serialized
to TEXT, created_at. -/
structure QueueRow where
  id : Nat
  type : String
  action : String
  payload : String
  created_at : Nat
deriving DecidableEq

/-- The durable state of offline_cache.db: the two tables plus the next
AUTOINCREMENT value for sync_queue. -/
structure Store where
  guides : List GuideRow
  queue : List QueueRow
  nextQueueId : Nat
deriving DecidableEq

/-- A freshly initialized database: both tables empty, AUTOINCREMENT at 1. -/
def emptyStore : Store := { guides := [], queue := [], nextQueueId := 1 }

namespace offlineCache

/-- saveGuide: INSERT OR REPLACE keyed on the primary key id -- any existing
row with the same id is replaced by the new snapshot, stamped downloaded_at =
Date.now(). -/
def saveGuide (guide : Guide) (now : Nat) (s : Store) : Store :=
  { s with guides := s.guides.filter (fun r => r.id != guide.id) ++ [guideToRow guide now] }

/-- getGuide: SELECT * WHERE id = ?, null when absent, downloaded_at stripped
from the returned record. -/
def getGuide (id : String) (s : Store) : Option Guide :=
  (s.guides.find? (fun r => r.id == id)).map rowToGuide

/-- getAllDownloadedGuides: all rows ordered by downloaded_at DESC. -/
def getAllDownloadedGuides (s : Store) : List GuideRow :=
  (s.guides.mergeSort (fun a b => Nat.ble b.downloaded_at a.downloaded_at))

/-- getDownloadedGuideIds: the id column of every row. -/
def getDownloadedGuideIds (s : Store) : List String :=
  s.guides.map (fun r => r.id)

/-- deleteGuide: DELETE WHERE id = ?; no error when the id is absent. -/
def deleteGuide (id : String) (s : Store) : Store :=
  { s with guides := s.guides.filter (fun r => r.id != id) }

/-- deleteAllGuides: DELETE without a WHERE clause. -/
def deleteAllGuides (s : Store) : Store :=
  { s with guides := [] }

/-- isGuideDownloaded: SELECT COUNT WHERE id = ?, compared against zero. -/
def isGuideDownloaded (id : String) (s : Store) : Bool :=
  decide (0 < (s.guides.filter (fun r => r.id == id)).length)

/-- getDownloadedCount: SELECT COUNT over the whole table. -/
def getDownloadedCount (s : Store) : Nat :=
  s.guides.length

/-- addToSyncQueue: INSERT (type, action, JSON.stringify payload, Date.now());
the row id is the AUTOINCREMENT value. -/
def addToSyncQueue (type action : String) (payload : Json) (now : Nat) (s : Store) : Store :=
  { s with
    queue := s.queue ++ [{ id := s.nextQueueId, type := type, action := action,
                           payload := jsonStringify payload, created_at := now }],
    nextQueueId := s.nextQueueId + 1 }

/-- Sorted insertion used to model ORDER BY created_at ASC. -/
def insertByTime (r : QueueRow) : List QueueRow → List QueueRow
  | [] => [r]
  | x :: xs => if r.created_at ≤ x.created_at then r :: x :: xs else x :: insertByTime r xs

/-- ORDER BY created_at ASC over the sync_queue rows. -/
def sortByTime : List QueueRow → List QueueRow
  | [] => []
  | x :: xs => insertByTime x (sortByTime xs)

/-- One drained sync_queue entry: the row with its payload JSON.parsed back
into a structured value. -/
structure DrainedItem where
  id : Nat
  type : String
  action : String
  payload : Json
  created_at : Nat

/-- JSON.parse applied to the payload column of one row (throwing, i.e. none,
if the stored text is not valid JSON). -/
def drainRow (r : QueueRow) : Option DrainedItem :=
  (jsonParse r.payload).map
    (fun p => { id := r.id, type := r.type, action := r.action, payload := p,
                created_at := r.created_at })

/-- results.map over JSON.parse: any row whose payload fails to parse makes
the whole drain throw. -/
def parseRows : List QueueRow → Option (List DrainedItem)
  | [] => some []
  | r :: rs =>
    match drainRow r, parseRows rs with
    | some i, some is => some (i :: is)
    | _, _ => none

/-- getSyncQueue: SELECT * ORDER BY created_at ASC, each payload parsed. -/
def getSyncQueue (s : Store) : Option (List DrainedItem) :=
  parseRows (sortByTime s.queue)

/-- removeSyncQueueItem: DELETE WHERE id = ?; no error when absent. -/
def removeSyncQueueItem (id : Nat) (s : Store) : Store :=
  { s with queue := s.queue.filter (fun r => r.id != id) }

/-- clearSyncQueue: DELETE without a WHERE clause. -/
def clearSyncQueue (s : Store) : Store :=
  { s with queue := [] }

/-- getSyncQueueCount: SELECT COUNT over sync_queue. -/
def getSyncQueueCount (s : Store) : Nat :=
  s.queue.length

end offlineCache

/-- A thrown JavaScript value: either a proper Error object carrying a
message, or any other value (a raw string, etc.). -/
inductive Thrown where
  | errObj (message : String)
  | rawVal (v : Json)

/-- The expression error instanceof Error ? error.message : the fixed
fallback string, as written in SyncManager.syncAll. -/
def Thrown.toMessage : Thrown → String
  | .errObj m => m
  | .rawVal _ => "Unknown error"

/-- One invocation of the remote API collaborator, with the exact argument
expressions SyncManager.processQueueItem reads off the payload (each is a
property access that may be undefined, hence Option). -/
inductive ApiCall where
  | updatePosition (guideId position : Option Json)
  | createBookmark (guideId position name page_reference is_last_read : Option Json)
  | deleteBookmark (guideId bookmarkId : Option Json)
  | createNote (guideId position content : Option Json)
  | updateNote (guideId noteId position content : Option Json)
  | deleteNote (guideId noteId : Option Json)

/-- The behaviour of the remote API during one sync pass: each call either
resolves or rejects with a thrown value. -/
def RemoteApi : Type := ApiCall → Except Thrown Unit

/-- Await one remote call: record that the call was issued and propagate its
outcome. -/
def runCall (api : RemoteApi) (c : ApiCall) : List ApiCall × Except Thrown Unit :=
  ([c], api c)

/-- The aggregate result of SyncManager.syncAll. -/
structure SyncResult where
  success : Nat
  failed : Nat
  errors : List String
deriving DecidableEq

namespace SyncManager

/-- An item passed to SyncManager.queueChange. -/
structure SyncQueueItem where
  type : String
  action : String
  payload : Json

/-- queueChange: delegates to offlineCache.addToSyncQueue. -/
def queueChange (item : SyncQueueItem) (now : Nat) (s : Store) : Store :=
  offlineCache.addToSyncQueue item.type item.action item.payload now s

/-- getPendingCount: delegates to offlineCache.getSyncQueueCount. -/
def getPendingCount (s : Store) : Nat :=
  offlineCache.getSyncQueueCount s

/-- clearQueue: delegates to offlineCache.clearSyncQueue. -/
def clearQueue (s : Store) : Store :=
  offlineCache.clearSyncQueue s

/-- processQueueItem: the dispatch switch on item.type with inner if-chains
on item.action. Returns the list of remote calls issued together with the
outcome. A type outside the switch throws the Unknown sync type error; a
recognized type whose action matches no inner branch falls through the
switch arm and resolves without any remote call. -/
def processQueueItem (api : RemoteApi) (item : offlineCache.DrainedItem) :
    List ApiCall × Except Thrown Unit :=
  if item.type = "position" then
    if item.action = "update" then
      runCall api (ApiCall.updatePosition (item.payload.getField ("guideId"))
        (item.payload.getField ("position")))
    else ([], Except.ok ())
  else if item.type = "bookmark" then
    if item.action = "create" then
      runCall api (ApiCall.createBookmark (item.payload.getField ("guideId"))
        (item.payload.getField ("position")) (item.payload.getField ("name"))
        (item.payload.getField ("page_reference")) (item.payload.getField ("is_last_read")))
    else if item.action = "delete" then
      runCall api (ApiCall.deleteBookmark (item.payload.getField ("guideId"))
        (item.payload.getField ("bookmarkId")))
    else ([], Except.ok ())
  else if item.type = "note" then
    if item.action = "create" then
      runCall api (ApiCall.createNote (item.payload.getField ("guideId"))
        (item.payload.getField ("position")) (item.payload.getField ("content")))
    else if item.action = "update" then
      runCall api (ApiCall.updateNote (item.payload.getField ("guideId"))
        (item.payload.getField ("noteId")) (item.payload.getField ("position"))
        (item.payload.getField ("content")))
    else if item.action = "delete" then
      runCall api (ApiCall.deleteNote (item.payload.getField ("guideId"))
        (item.payload.getField ("noteId")))
    else ([], Except.ok ())
  else
    ([], Except.error (Thrown.errObj ("Unknown sync type: " ++ item.type)))

/-- The for-loop body of syncAll, threading the store, the result record and
the list of remote calls issued so far. On success the item is removed from
the queue by id and success is incremented; on failure the item is retained,
failed is incremented, and the message (or fallback) is appended. -/
def syncLoop (api : RemoteApi) : List offlineCache.DrainedItem → Store → SyncResult →
    List ApiCall → SyncResult × Store × List ApiCall
  | [], s, res, calls => (res, s, calls)
  | item :: rest, s, res, calls =>
    match processQueueItem api item with
    | (cs, Except.ok _) =>
      syncLoop api rest (offlineCache.removeSyncQueueItem item.id s)
        { res with success := res.success + 1 } (calls ++ cs)
    | (cs, Except.error e) =>
      syncLoop api rest s
        { res with failed := res.failed + 1, errors := res.errors ++ [e.toMessage] }
        (calls ++ cs)

/-- syncAll: drain the queue (none models getSyncQueue throwing) and run the
loop from a zeroed result. -/
def syncAll (api : RemoteApi) (s : Store) : Option (SyncResult × Store × List ApiCall) :=
  (offlineCache.getSyncQueue s).map (fun queue => syncLoop api queue s { success := 0, failed := 0, errors := [] } [])

end SyncManager

/-- CreateBookmarkInput (api/types.ts); the optional fields model properties
that may be absent from the object. -/
structure CreateBookmarkInput where
  position : Int
  name : Option String
  page_reference : Option String
  is_last_read : Option Bool
deriving DecidableEq

/-- CreateNoteInput (api/types.ts). -/
structure CreateNoteInput where
  position : Option Int
  content : String
deriving DecidableEq

/-- A Bookmark entity as the UI receives it. -/
structure Bookmark where
  id : String
  guide_id : String
  position : Int
  name : Option String
  page_reference : Option String
  is_last_read : Bool
  created_at : Nat
deriving DecidableEq

/-- A Note entity as the UI receives it. -/
structure Note where
  id : String
  guide_id : String
  position : Option Int
  content : String
  created_at : Nat
  updated_at : Nat
deriving DecidableEq

/-- A present field of an object literal; absent properties (undefined) are
omitted, matching both object spread and JSON.stringify. -/
def optField (k : String) : Option Json → List (String × Json)
  | some v => [(k, v)]
  | none => []

/-- The object literal spread of useCreateBookmark:
guideId with the CreateBookmarkInput fields spread after it. -/
def createBookmarkPayload (guideId : String) (data : CreateBookmarkInput) : Json :=
  Json.obj ([(("guideId"), Json.str guideId), (("position"), Json.num data.position)] ++
    optField ("name") (data.name.map Json.str) ++
    optField ("page_reference") (data.page_reference.map Json.str) ++
    optField ("is_last_read") (data.is_last_read.map Json.bool))

/-- The object literal spread of useCreateNote. -/
def createNotePayload (guideId : String) (data : CreateNoteInput) : Json :=
  Json.obj ([(("guideId"), Json.str guideId)] ++
    optField ("position") (data.position.map Json.num) ++
    [(("content"), Json.str data.content)])

/-- The mutationFn of useCreateBookmark: online, call the remote API and
return its response unchanged; offline, queue the change through
SyncManager.queueChange and return an optimistic bookmark whose id is the
template literal with the temp_ placeholder prefix and Date.now(). -/
def useCreateBookmark (isOnline : Bool) (now : Nat)
    (remote : String → CreateBookmarkInput → Except Thrown Bookmark)
    (guideId : String) (data : CreateBookmarkInput) (s : Store) :
    Except Thrown (Bookmark × Store) :=
  if isOnline then
    match remote guideId data with
    | Except.ok b => Except.ok (b, s)
    | Except.error e => Except.error e
  else
    Except.ok
      ({ id := "temp_" ++ String.mk (natChars now),
         guide_id := guideId,
         position := data.position,
         name := data.name,
         page_reference := data.page_reference,
         is_last_read := data.is_last_read.getD false,
         created_at := now },
       SyncManager.queueChange
         { type := "bookmark", action := "create",
           payload := createBookmarkPayload guideId data } now s)

/-- The mutationFn of useCreateNote: same shape as useCreateBookmark, with
the optimistic note stamped created_at = updated_at = now. -/
def useCreateNote (isOnline : Bool) (now : Nat)
    (remote : String → CreateNoteInput → Except Thrown Note)
    (guideId : String) (data : CreateNoteInput) (s : Store) :
    Except Thrown (Note × Store) :=
  if isOnline then
    match remote guideId data with
    | Except.ok n => Except.ok (n, s)
    | Except.error e => Except.error e
  else
    Except.ok
      ({ id := "temp_" ++ String.mk (natChars now),
         guide_id := guideId,
         position := data.position,
         content := data.content,
         created_at := now,
         updated_at := now },
       SyncManager.queueChange
         { type := "note", action := "create",
           payload := createNotePayload guideId data } now s)

/-- The reachable states of the store: everything obtainable from a fresh
database through the operations the application performs on it. -/
inductive ReachableStore : Store → Prop where
  | empty : ReachableStore emptyStore
  | save (g : Guide) (now : Nat) (s : Store) :
      ReachableStore s → ReachableStore (offlineCache.saveGuide g now s)
  | deleteGuide (id : String) (s : Store) :
      ReachableStore s → ReachableStore (offlineCache.deleteGuide id s)
  | deleteAllGuides (s : Store) :
      ReachableStore s → ReachableStore (offlineCache.deleteAllGuides s)
  | addQueue (type action : String) (p : Json) (now : Nat) (s : Store) :
      ReachableStore s → ReachableStore (offlineCache.addToSyncQueue type action p now s)
  | removeQueue (id : Nat) (s : Store) :
      ReachableStore s → ReachableStore (offlineCache.removeSyncQueueItem id s)
  | clearQueue (s : Store) :
      ReachableStore s → ReachableStore (offlineCache.clearSyncQueue s)
  | sync (api : RemoteApi) (s : Store) (r : SyncResult) (s2 : Store) (cs : List ApiCall) :
      ReachableStore s → SyncManager.syncAll api s = some (r, s2, cs) → ReachableStore s2

/-- Whether the dispatch of one drained item under the given remote API
resolves. -/
def dispatchOk (api : RemoteApi) (i : offlineCache.DrainedItem) : Bool :=
  match (SyncManager.processQueueItem api i).2 with
  | Except.ok _ => true
  | Except.error _ => false

/-- The message syncAll records for one drained item, when its dispatch
rejects. -/
def failMsg (api : RemoteApi) (i : offlineCache.DrainedItem) : Option String :=
  match (SyncManager.processQueueItem api i).2 with
  | Except.ok _ => none
  | Except.error e => some e.toMessage

/-- The remote calls one dispatch issues. -/
def dispatchCalls (api : RemoteApi) (i : offlineCache.DrainedItem) : List ApiCall :=
  (SyncManager.processQueueItem api i).1

/-- The ids of the drained items whose dispatch resolved (these are the rows
syncAll removes). -/
def okIds (api : RemoteApi) (items : List offlineCache.DrainedItem) : List Nat :=
  (items.filter (dispatchOk api)).map (fun i => i.id)

/-- A remote API that rejects every call (used to witness that some dispatch
paths complete without consulting the remote API at all). -/
def apiRejectAll : RemoteApi := fun _ => Except.error (Thrown.errObj ("boom"))

/-- A queued change with a recognized type but an action outside the dispatch
table: position only supports update. -/
def itemPositionDelete : offlineCache.DrainedItem :=
  { id := 1, type := "position", action := "delete", payload := Json.obj [], created_at := 0 }

/-- A queued change with an unrecognized type, as in the spec example. -/
def itemBogus : offlineCache.DrainedItem :=
  { id := 1, type := "bogus", action := "create", payload := Json.obj [], created_at := 0 }

/-- A position-update payload for guide g. -/
def positionPayload (g : String) (p : Int) : Json :=
  Json.obj [(("guideId"), Json.str g), (("position"), Json.num p)]

/-- Queue of three position updates enqueued oldest-first (g1 at 10, g2 at
20, g3 at 30) on a fresh store. -/
def storeThree : Store :=
  offlineCache.addToSyncQueue ("position") ("update") (positionPayload ("g3") 300) 30
    (offlineCache.addToSyncQueue ("position") ("update") (positionPayload ("g2") 200) 20
      (offlineCache.addToSyncQueue ("position") ("update") (positionPayload ("g1") 100) 10
        emptyStore))

/-- The drained view of storeThree. -/
def itemsThree : List offlineCache.DrainedItem :=
  [{ id := 1, type := "position", action := "update", payload := positionPayload ("g1") 100, created_at := 10 },
   { id := 2, type := "position", action := "update", payload := positionPayload ("g2") 200, created_at := 20 },
   { id := 3, type := "position", action := "update", payload := positionPayload ("g3") 300, created_at := 30 }]

/-- A remote API that rejects exactly the update of guide g2 with an Error
whose message is "API error", and resolves everything else. -/
def apiFailG2 : RemoteApi := fun c =>
  match c with
  | ApiCall.updatePosition (some (Json.str g)) _ =>
    if g = "g2" then Except.error (Thrown.errObj ("API error")) else Except.ok ()
  | _ => Except.ok ()

/-- A remote API that rejects every call with the plain string "oops"
(not an Error object). -/
def apiRejectOops : RemoteApi := fun _ => Except.error (Thrown.rawVal (Json.str ("oops")))

/-- A single-entry queue on a fresh store. -/
def storeOne : Store :=
  offlineCache.addToSyncQueue ("position") ("update") (positionPayload ("g1") 100) 10 emptyStore

/-- The drained view of storeOne. -/
def itemsOne : List offlineCache.DrainedItem :=
  [{ id := 1, type := "position", action := "update", payload := positionPayload ("g1") 100, created_at := 10 }]

/-- A stub remote bookmark creation (the offline path never consults it). -/
def remoteBookmarkStub : String → CreateBookmarkInput → Except Thrown Bookmark :=
  fun _ _ => Except.error (Thrown.errObj ("network"))

/-- A stub remote note creation. -/
def remoteNoteStub : String → CreateNoteInput → Except Thrown Note :=
  fun _ _ => Except.error (Thrown.errObj ("network"))

/-- The bookmark input of the spec end-to-end scenario: position 100, named
Ch.1. -/
def bookmarkInputCh1 : CreateBookmarkInput :=
  { position := 100, name := some ("Ch.1"), page_reference := none, is_last_read := none }

/-- A second, different bookmark input. -/
def bookmarkInputCh2 : CreateBookmarkInput :=
  { position := 200, name := some ("Ch.2"), page_reference := none, is_last_read := none }

/-- A note input. -/
def noteInputA : CreateNoteInput := { position := some 200, content := "My note" }

/-- The id of the bookmark a create mutation resolved with. -/
def bkResultId : Except Thrown (Bookmark × Store) → Option String
  | Except.ok (b, _) => some b.id
  | Except.error _ => none

/-- The id of the note a create mutation resolved with. -/
def ntResultId : Except Thrown (Note × Store) → Option String
  | Except.ok (n, _) => some n.id
  | Except.error _ => none

/-- Concrete queue rows with distinct ascending timestamps, used to witness
the drain ordering claim. -/
def rowA : QueueRow :=
  { id := 1, type := "position", action := "update",
    payload := jsonStringify (positionPayload ("g1") 100), created_at := 10 }

/-- Second row, later timestamp. -/
def rowB : QueueRow :=
  { id := 2, type := "bookmark", action := "create",
    payload := jsonStringify (positionPayload ("g2") 200), created_at := 20 }

/-- Third row, latest timestamp. -/
def rowC : QueueRow :=
  { id := 3, type := "note", action := "delete",
    payload := jsonStringify (positionPayload ("g3") 300), created_at := 30 }

/-- A store holding the three rows out of creation order (internal storage
order scrambled). -/
def storeScrambled : Store := { guides := [], queue := [rowB, rowC, rowA], nextQueueId := 4 }

/-- A cached guide snapshot g1. -/
def guideG1 : Guide :=
  { id := "g1", title := "Guide 1", content := "first text", format := "txt",
    file_path := "/path/g1.txt", game_id := none, last_read_position := none,
    metadata := none, created_at := 1, updated_at := 2 }

/-- A second snapshot with the same id and different contents. -/
def guideG1v2 : Guide :=
  { id := "g1", title := "Guide 1 rev", content := "second text", format := "txt",
    file_path := "/path/g1.txt", game_id := some ("game9"), last_read_position := some 55,
    metadata := none, created_at := 1, updated_at := 3 }

theorem isDigitChar_digitChar (d : Nat) (h : d < 10) : isDigitChar (digitChar d) = true := by
  interval_cases d <;> decide

theorem digitVal_digitChar (d : Nat) (h : d < 10) : digitVal (digitChar d) = d := by
  interval_cases d <;> decide

theorem digitChar_ne_dash (d : Nat) (h : d < 10) : digitChar d ≠ '-' := by
  interval_cases d <;> decide

theorem natDigitsLE_lt (fuel : Nat) : ∀ (n : Nat), ∀ d ∈ natDigitsLE fuel n, d < 10 := by
  induction fuel with
  | zero => intro n d hd; simp [natDigitsLE] at hd
  | succ f ih =>
    intro n d hd
    rw [natDigitsLE] at hd
    by_cases h : n = 0
    · simp [h] at hd
    · simp only [h, if_false, List.mem_cons] at hd
      rcases hd with h1 | h2
      · omega
      · exact ih _ _ h2

theorem foldr_natDigitsLE (fuel : Nat) : ∀ (n a : Nat), n < fuel →
    (natDigitsLE fuel n).foldr (fun d x => x * 10 + d) a =
      a * 10 ^ (natDigitsLE fuel n).length + n := by
  induction fuel with
  | zero => intro n a h; omega
  | succ f ih =>
    intro n a h
    rw [natDigitsLE]
    by_cases h0 : n = 0
    · simp [h0]
    · have hlt : n / 10 < f := by omega
      simp only [h0, if_false, List.foldr_cons, List.length_cons]
      rw [ih (n / 10) a hlt, pow_succ]
      have e : (a * 10 ^ (natDigitsLE f (n / 10)).length + n / 10) * 10 + n % 10 =
          a * (10 ^ (natDigitsLE f (n / 10)).length * 10) + (n / 10 * 10 + n % 10) := by ring
      rw [e]
      omega

theorem takeDigits_stop (cs : List Char) (a : Nat) (h : headNotDigit cs = true) :
    takeDigits cs a = (a, cs) := by
  cases cs with
  | nil => rfl
  | cons c cs' =>
    simp only [headNotDigit, Bool.not_eq_true'] at h
    simp [takeDigits, h]

theorem takeDigits_digits (ds : List Nat) : ∀ (tail : List Char) (a : Nat),
    (∀ d ∈ ds, d < 10) → headNotDigit tail = true →
    takeDigits ((ds.map digitChar) ++ tail) a =
      (ds.foldl (fun x d => x * 10 + d) a, tail) := by
  induction ds with
  | nil => intro tail a _ htail; simpa using takeDigits_stop tail a htail
  | cons d ds ih =>
    intro tail a hds htail
    have hd : d < 10 := hds d (by simp)
    simp only [List.map_cons, List.cons_append, List.foldl_cons]
    simp only [takeDigits]
    rw [if_pos (isDigitChar_digitChar d hd), digitVal_digitChar d hd]
    exact ih tail (a * 10 + d) (fun x hx => hds x (by simp [hx])) htail

theorem takeDigits_natChars (n : Nat) (tail : List Char) (htail : headNotDigit tail = true) :
    takeDigits (natChars n ++ tail) 0 = (n, tail) := by
  by_cases h : n = 0
  · subst h
    simp only [natChars, if_pos rfl, List.cons_append, List.nil_append]
    simp only [takeDigits]
    rw [if_pos (by decide)]
    have : (0 : Nat) * 10 + digitVal '0' = 0 := by decide
    rw [this]
    exact takeDigits_stop tail 0 htail
  · rw [natChars, if_neg h]
    rw [takeDigits_digits _ tail 0
      (fun d hd => natDigitsLE_lt (n+1) n d (List.mem_reverse.mp hd)) htail]
    rw [List.foldl_reverse]
    have := foldr_natDigitsLE (n+1) n 0 (by omega)
    simp only [this]
    simp

theorem natChars_head (n : Nat) :
    ∃ d rest, d < 10 ∧ natChars n = digitChar d :: rest := by
  by_cases h : n = 0
  · exact ⟨0, [], by omega, by simp [h, natChars]; rfl⟩
  · have hne : (natDigitsLE (n+1) n).reverse ≠ [] := by
      simp only [ne_eq, List.reverse_eq_nil_iff]
      rw [natDigitsLE]
      simp [h]
    obtain ⟨d, ds', hds⟩ := List.exists_cons_of_ne_nil hne
    refine ⟨d, ds'.map digitChar, ?_, ?_⟩
    · exact natDigitsLE_lt (n+1) n d (List.mem_reverse.mp (by rw [hds]; simp))
    · rw [natChars, if_neg h, hds, List.map_cons]

theorem natChars_inj (a b : Nat) (h : natChars a = natChars b) : a = b := by
  have ha := takeDigits_natChars a [] rfl
  have hb := takeDigits_natChars b [] rfl
  rw [List.append_nil] at ha hb
  rw [h, hb] at ha
  exact (Prod.mk.injEq ..).mp ha.symm |>.1

theorem parseNumFrom_intChars (n : Int) (tail : List Char) (htail : headNotDigit tail = true) :
    parseNumFrom (intChars n ++ tail) = some (n, tail) := by
  obtain ⟨d, rest, hd, hnc⟩ := natChars_head n.natAbs
  have hcons : natChars n.natAbs ++ tail = digitChar d :: (rest ++ tail) := by
    rw [hnc, List.cons_append]
  have hnd : headNotDigit (natChars n.natAbs ++ tail) = false := by
    rw [hcons]
    simp [headNotDigit, isDigitChar_digitChar d hd]
  by_cases hn : n < 0
  · simp only [intChars, if_pos hn, List.cons_append]
    simp only [parseNumFrom, if_true]
    rw [hnd]
    simp only [Bool.false_eq_true, if_false]
    rw [takeDigits_natChars n.natAbs tail htail]
    simp only [Option.some.injEq, Prod.mk.injEq, and_true]
    omega
  · simp only [intChars, if_neg hn]
    rw [hcons]
    simp only [parseNumFrom]
    rw [if_neg (digitChar_ne_dash d hd), if_pos (isDigitChar_digitChar d hd)]
    rw [← hcons, takeDigits_natChars n.natAbs tail htail]
    simp only [Option.some.injEq, Prod.mk.injEq, and_true]
    omega

theorem hexVal_hexDigitChar (x : Nat) (h : x < 16) : hexVal (hexDigitChar x) = some x := by
  interval_cases x <;> decide

theorem escapeChar_length_pos (c : Char) : 1 ≤ (escapeChar c).length := by
  unfold escapeChar
  split_ifs <;> simp

theorem length_le_escaped (l : List Char) : l.length ≤ ((l.map escapeChar).flatten).length := by
  induction l with
  | nil => simp
  | cons c cs ih =>
    simp only [List.map_cons, List.flatten_cons, List.length_append, List.length_cons]
    have := escapeChar_length_pos c
    omega

theorem parseStringBody_escape (chars : List Char) : ∀ (fuel : Nat) (acc tail : List Char),
    chars.length < fuel →
    parseStringBody fuel acc ((chars.map escapeChar).flatten ++ '"' :: tail) =
      some (String.mk (acc.reverse ++ chars), tail) := by
  induction chars with
  | nil =>
    intro fuel acc tail hf
    obtain ⟨f, rfl⟩ : ∃ f, fuel = f + 1 := ⟨fuel - 1, by omega⟩
    simp [parseStringBody]
  | cons c cs ih =>
    intro fuel acc tail hf
    obtain ⟨f, rfl⟩ : ∃ f, fuel = f + 1 := ⟨fuel - 1, by omega⟩
    have hcs : cs.length < f := by
      simp only [List.length_cons] at hf
      omega
    simp only [List.map_cons, List.flatten_cons, List.append_assoc]
    by_cases h1 : c = '"'
    · subst h1
      simp only [escapeChar]
      norm_num
      simp only [parseStringBody]
      norm_num
      rw [ih f ('"' :: acc) tail hcs]
      simp
    · by_cases h2 : c = '\\'
      · subst h2
        simp [escapeChar, parseStringBody]
        rw [ih f ('\\' :: acc) tail hcs]
        simp
      · by_cases h3 : c = '\x08'
        · subst h3
          simp [escapeChar, parseStringBody]
          rw [ih f ('\x08' :: acc) tail hcs]
          simp
        · by_cases h4 : c = '\x0c'
          · subst h4
            simp [escapeChar, parseStringBody]
            rw [ih f ('\x0c' :: acc) tail hcs]
            simp
          · by_cases h5 : c = '\n'
            · subst h5
              simp [escapeChar, parseStringBody]
              rw [ih f ('\n' :: acc) tail hcs]
              simp
            · by_cases h6 : c = '\r'
              · subst h6
                simp [escapeChar, parseStringBody]
                rw [ih f ('\r' :: acc) tail hcs]
                simp
              · by_cases h7 : c = '\t'
                · subst h7
                  simp [escapeChar, parseStringBody]
                  rw [ih f ('\t' :: acc) tail hcs]
                  simp
                · by_cases h8 : c.toNat < 32
                  · have e1 : hexVal (hexDigitChar (c.toNat / 16)) = some (c.toNat / 16) :=
                      hexVal_hexDigitChar _ (by omega)
                    have e2 : hexVal (hexDigitChar (c.toNat % 16)) = some (c.toNat % 16) :=
                      hexVal_hexDigitChar _ (by omega)
                    simp only [escapeChar, if_neg h1, if_neg h2, if_neg h3, if_neg h4,
                      if_neg h5, if_neg h6, if_neg h7, if_pos h8, List.cons_append,
                      List.nil_append]
                    simp only [parseStringBody]
                    simp [e1, e2]
                    rw [show hexVal ('0') = some 0 from by decide]
                    simp only [Nat.zero_mul, Nat.zero_add, Nat.add_zero]
                    have e3 : (c.toNat / 16) * 16 + c.toNat % 16 = c.toNat := by omega
                    rw [e3, Char.ofNat_toNat]
                    rw [ih f (c :: acc) tail hcs]
                    simp
                  · simp only [escapeChar, if_neg h1, if_neg h2, if_neg h3, if_neg h4,
                      if_neg h5, if_neg h6, if_neg h7, if_neg h8, List.cons_append,
                      List.nil_append]
                    simp only [parseStringBody]
                    rw [if_neg h1, if_neg h2]
                    rw [ih f (c :: acc) tail hcs]
                    simp

theorem digitChar_notStart (d : Nat) (h : d < 10) :
    digitChar d ≠ 'n' ∧ digitChar d ≠ 't' ∧ digitChar d ≠ 'f' ∧ digitChar d ≠ '"' ∧
      digitChar d ≠ '[' ∧ digitChar d ≠ '\x7b' ∧ digitChar d ≠ ']' := by
  interval_cases d <;> decide

theorem jsonChars_head_shape (v : Json) : ∃ c cs, jsonChars v = c :: cs ∧ c ≠ ']' := by
  cases v with
  | null => exact ⟨'n', _, rfl, by decide⟩
  | bool b =>
    cases b with
    | false => exact ⟨'f', _, rfl, by decide⟩
    | true => exact ⟨'t', _, rfl, by decide⟩
  | num n =>
    by_cases hn : n < 0
    · exact ⟨'-', natChars n.natAbs, by simp [jsonChars, intChars, hn], by decide⟩
    · obtain ⟨d, rest, hd, hnc⟩ := natChars_head n.natAbs
      exact ⟨digitChar d, rest, by simp [jsonChars, intChars, hn, hnc],
        (digitChar_notStart d hd).2.2.2.2.2.2⟩
  | str s => exact ⟨'"', _, rfl, by decide⟩
  | arr es => exact ⟨'[', _, rfl, by decide⟩
  | obj fs => exact ⟨'\x7b', _, rfl, by decide⟩

theorem jsonChars_length_pos (v : Json) : 1 ≤ (jsonChars v).length := by
  obtain ⟨c, cs, h, _⟩ := jsonChars_head_shape v
  simp [h]

theorem objChars_shape (f0 : String × Json) (fs : List (String × Json)) :
    ∃ z, objChars (f0 :: fs) = '"' :: z := by
  obtain ⟨k, v⟩ := f0
  cases fs with
  | nil =>
    exact ⟨(List.map escapeChar k.data).flatten ++ '"' :: ':' :: jsonChars v,
      by simp [objChars, strChars]⟩
  | cons f1 fs1 =>
    exact ⟨(List.map escapeChar k.data).flatten ++
        '"' :: ':' :: (jsonChars v ++ ',' :: objChars (f1 :: fs1)),
      by simp [objChars, strChars]⟩

theorem upsertField_notMem (k : String) (v : Json) (acc : List (String × Json))
    (h : k ∉ acc.map Prod.fst) : upsertField k v acc = acc ++ [(k, v)] := by
  induction acc with
  | nil => rfl
  | cons kv acc ih =>
    obtain ⟨k0, v0⟩ := kv
    simp only [List.map_cons, List.mem_cons] at h
    push_neg at h
    have hne : ¬k0 = k := fun hh => h.1 hh.symm
    simp only [upsertField, if_neg hne]
    rw [ih h.2]
    simp

theorem parse_stringify_round (N : Nat) :
    (∀ (v : Json) (tail : List Char) (fuel : Nat), Json.WF v →
        3 * (jsonChars v).length ≤ N →
        3 * (jsonChars v).length ≤ fuel → headNotDigit tail = true →
        parseVal fuel (jsonChars v ++ tail) = some (v, tail)) ∧
    (∀ (x : Json) (xs : List Json) (acc : List Json) (tail : List Char) (fuel : Nat),
        (∀ e ∈ x :: xs, Json.WF e) →
        3 * (arrChars (x :: xs)).length + 2 ≤ N →
        3 * (arrChars (x :: xs)).length + 2 ≤ fuel →
        parseElems fuel (arrChars (x :: xs) ++ ']' :: tail) acc =
          some (Json.arr (acc ++ x :: xs), tail)) ∧
    (∀ (f0 : String × Json) (fs : List (String × Json)) (acc : List (String × Json))
        (tail : List Char) (fuel : Nat),
        ((acc ++ f0 :: fs).map Prod.fst).Nodup →
        (∀ kv ∈ f0 :: fs, Json.WF kv.2) →
        3 * (objChars (f0 :: fs)).length + 2 ≤ N →
        3 * (objChars (f0 :: fs)).length + 2 ≤ fuel →
        parseFields fuel (objChars (f0 :: fs) ++ '\x7d' :: tail) acc =
          some (Json.obj (acc ++ f0 :: fs), tail)) := by
  induction N using Nat.strong_induction_on with
  | _ N IH =>
  refine ⟨?_, ?_, ?_⟩
  · intro v tail fuel hwf hN hfuel htail
    have hlen := jsonChars_length_pos v
    obtain ⟨f, rfl⟩ : ∃ f, fuel = f + 1 := ⟨fuel - 1, by omega⟩
    cases v with
    | null => rfl
    | bool b =>
      cases b with
      | false => rfl
      | true => rfl
    | num n =>
      by_cases hn : n < 0
      · have hsh : jsonChars (Json.num n) ++ tail = '-' :: (natChars n.natAbs ++ tail) := by
          simp [jsonChars, intChars, hn]
        rw [hsh]
        simp only [parseVal]
        rw [if_neg (by decide : ¬('-' : Char) = 'n'), if_neg (by decide : ¬('-' : Char) = 't'),
          if_neg (by decide : ¬('-' : Char) = 'f'), if_neg (by decide : ¬('-' : Char) = '"'),
          if_neg (by decide : ¬('-' : Char) = '['), if_neg (by decide : ¬('-' : Char) = '\x7b')]
        rw [show ('-' : Char) :: (natChars n.natAbs ++ tail) = intChars n ++ tail from by
          simp [intChars, hn]]
        rw [parseNumFrom_intChars n tail htail]
        rfl
      · obtain ⟨d, rest, hd, hnc⟩ := natChars_head n.natAbs
        have hsh : jsonChars (Json.num n) ++ tail = digitChar d :: (rest ++ tail) := by
          simp [jsonChars, intChars, hn, hnc]
        obtain ⟨hn1, hn2, hn3, hn4, hn5, hn6, _⟩ := digitChar_notStart d hd
        rw [hsh]
        simp only [parseVal]
        rw [if_neg hn1, if_neg hn2, if_neg hn3, if_neg hn4, if_neg hn5, if_neg hn6]
        rw [show digitChar d :: (rest ++ tail) = intChars n ++ tail from by
          simp [intChars, hn, hnc]]
        rw [parseNumFrom_intChars n tail htail]
        rfl
    | str s =>
      have hsh : jsonChars (Json.str s) ++ tail =
          '"' :: ((s.data.map escapeChar).flatten ++ '"' :: tail) := by
        simp [jsonChars, strChars]
      rw [hsh]
      show parseStrTok
          (parseStringBody (((s.data.map escapeChar).flatten ++ '"' :: tail).length + 1) []
            ((s.data.map escapeChar).flatten ++ '"' :: tail)) = some (Json.str s, tail)
      have hlen2 := length_le_escaped s.data
      have hfl : s.data.length < ((s.data.map escapeChar).flatten ++ '"' :: tail).length + 1 := by
        simp only [List.length_append, List.length_cons]
        omega
      rw [parseStringBody_escape s.data _ [] tail hfl]
      rfl
    | arr es =>
      cases es with
      | nil => rfl
      | cons x xs =>
        obtain ⟨c0, cs0, hx, hc0⟩ := jsonChars_head_shape x
        have harr : ∃ t, arrChars (x :: xs) = jsonChars x ++ t := by
          cases xs with
          | nil => exact ⟨[], by simp [arrChars]⟩
          | cons y ys => exact ⟨',' :: arrChars (y :: ys), rfl⟩
        obtain ⟨t, ht⟩ := harr
        have hsh : jsonChars (Json.arr (x :: xs)) ++ tail =
            '[' :: (arrChars (x :: xs) ++ ']' :: tail) := by
          simp [jsonChars]
        have hlarr : (jsonChars (Json.arr (x :: xs))).length = (arrChars (x :: xs)).length + 2 := by
          simp [jsonChars]
        rw [hsh]
        simp only [parseVal]
        rw [if_neg (by decide : ¬('[' : Char) = 'n'), if_neg (by decide : ¬('[' : Char) = 't'),
          if_neg (by decide : ¬('[' : Char) = 'f'), if_neg (by decide : ¬('[' : Char) = '"')]
        simp only [if_true]
        have hexpand : arrChars (x :: xs) ++ ']' :: tail = c0 :: (cs0 ++ (t ++ ']' :: tail)) := by
          rw [ht, hx]
          simp [List.append_assoc]
        rw [hexpand]
        split
        · rename_i heq
          injection heq with h1 _
          exact absurd h1 hc0
        · rw [← hexpand]
          have hml : 3 * (arrChars (x :: xs)).length + 2 < N := by omega
          have he := (IH (3 * (arrChars (x :: xs)).length + 2) hml).2.1
          cases hwf with
          | arr _ hall =>
            rw [he x xs [] tail f hall le_rfl (by omega)]
            simp
    | obj fs =>
      cases fs with
      | nil => rfl
      | cons f0 fs1 =>
        obtain ⟨z, hz⟩ := objChars_shape f0 fs1
        have hsh : jsonChars (Json.obj (f0 :: fs1)) ++ tail =
            '\x7b' :: (objChars (f0 :: fs1) ++ '\x7d' :: tail) := by
          simp [jsonChars]
        have hlobj : (jsonChars (Json.obj (f0 :: fs1))).length =
            (objChars (f0 :: fs1)).length + 2 := by
          simp [jsonChars]
        rw [hsh]
        simp only [parseVal]
        rw [if_neg (by decide : ¬('\x7b' : Char) = 'n'),
          if_neg (by decide : ¬('\x7b' : Char) = 't'),
          if_neg (by decide : ¬('\x7b' : Char) = 'f'),
          if_neg (by decide : ¬('\x7b' : Char) = '"'),
          if_neg (by decide : ¬('\x7b' : Char) = '[')]
        simp only [if_true]
        have hexpand : objChars (f0 :: fs1) ++ '\x7d' :: tail = '"' :: (z ++ '\x7d' :: tail) := by
          rw [hz]
          simp
        rw [hexpand]
        split
        · rename_i heq
          injection heq with h1 _
          exact absurd h1 (by decide)
        · rw [← hexpand]
          have hml : 3 * (objChars (f0 :: fs1)).length + 2 < N := by omega
          have hfds := (IH (3 * (objChars (f0 :: fs1)).length + 2) hml).2.2
          cases hwf with
          | obj _ hk hv =>
            exact hfds f0 fs1 [] tail f hk hv le_rfl (by omega)
  · intro x xs acc tail fuel hwf hN hfuel
    have hlx := jsonChars_length_pos x
    obtain ⟨f, rfl⟩ : ∃ f, fuel = f + 1 := ⟨fuel - 1, by omega⟩
    cases xs with
    | nil =>
      have ha : arrChars [x] = jsonChars x := by simp [arrChars]
      rw [ha] at hN hfuel ⊢
      show parseElemsCont f (parseVal f (jsonChars x ++ ']' :: tail)) acc =
        some (Json.arr (acc ++ [x]), tail)
      have hv := (IH (3 * (jsonChars x).length) (by omega)).1
      rw [hv x (']' :: tail) f (hwf x (by simp)) le_rfl (by omega) rfl]
      obtain ⟨f1, rfl⟩ : ∃ f1, f = f1 + 1 := ⟨f - 1, by omega⟩
      rfl
    | cons y ys =>
      have ha : arrChars (x :: y :: ys) = jsonChars x ++ ',' :: arrChars (y :: ys) := rfl
      have hlya : (arrChars (x :: y :: ys)).length =
          (jsonChars x).length + 1 + (arrChars (y :: ys)).length := by
        rw [ha]
        simp only [List.length_append, List.length_cons]
        omega
      rw [ha, List.append_assoc, List.cons_append]
      show parseElemsCont f
          (parseVal f (jsonChars x ++ ',' :: (arrChars (y :: ys) ++ ']' :: tail))) acc =
        some (Json.arr (acc ++ x :: y :: ys), tail)
      have hv := (IH (3 * (jsonChars x).length) (by omega)).1
      rw [hv x (',' :: (arrChars (y :: ys) ++ ']' :: tail)) f (hwf x (by simp)) le_rfl
        (by omega) rfl]
      obtain ⟨f1, rfl⟩ : ∃ f1, f = f1 + 1 := ⟨f - 1, by omega⟩
      show parseElems f1 (arrChars (y :: ys) ++ ']' :: tail) (acc ++ [x]) =
        some (Json.arr (acc ++ x :: y :: ys), tail)
      have he := (IH (3 * (arrChars (y :: ys)).length + 2) (by omega)).2.1
      rw [he y ys (acc ++ [x]) tail f1 (fun e hin => hwf e (List.mem_cons_of_mem x hin)) le_rfl
        (by omega)]
      simp
  · intro f0 fs acc tail fuel hnd hwf hN hfuel
    obtain ⟨k, v⟩ := f0
    have hlv := jsonChars_length_pos v
    have hlstr : (strChars k).length = ((k.data.map escapeChar).flatten).length + 2 := by
      simp [strChars]
    have hlen2 := length_le_escaped k.data
    obtain ⟨f, rfl⟩ : ∃ f, fuel = f + 1 := ⟨fuel - 1, by omega⟩
    have hknotin : k ∉ acc.map Prod.fst := by
      have h2 : ((k :: (acc.map Prod.fst ++ (fs.map Prod.fst)))).Nodup := by
        rw [← List.nodup_middle]
        simpa using hnd
      have h3 := (List.nodup_cons.mp h2).1
      simp only [List.mem_append] at h3
      exact fun hmem => h3 (Or.inl hmem)
    cases fs with
    | nil =>
      have ho : objChars [(k, v)] = strChars k ++ ':' :: jsonChars v := rfl
      have hlo : (objChars [(k, v)]).length =
          (strChars k).length + 1 + (jsonChars v).length := by
        rw [ho]
        simp only [List.length_append, List.length_cons]
        omega
      rw [ho]
      have hin : (strChars k ++ ':' :: jsonChars v) ++ '\x7d' :: tail =
          '"' :: ((k.data.map escapeChar).flatten ++
            '"' :: (':' :: (jsonChars v ++ '\x7d' :: tail))) := by
        simp [strChars]
      rw [hin]
      show parseFieldsKey f
          (parseStringBody
            (((k.data.map escapeChar).flatten ++
              '"' :: (':' :: (jsonChars v ++ '\x7d' :: tail))).length + 1) []
            ((k.data.map escapeChar).flatten ++
              '"' :: (':' :: (jsonChars v ++ '\x7d' :: tail)))) acc =
        some (Json.obj (acc ++ [(k, v)]), tail)
      have hfl : k.data.length <
          ((k.data.map escapeChar).flatten ++
            '"' :: (':' :: (jsonChars v ++ '\x7d' :: tail))).length + 1 := by
        simp only [List.length_append, List.length_cons]
        omega
      rw [parseStringBody_escape k.data _ [] (':' :: (jsonChars v ++ '\x7d' :: tail)) hfl]
      obtain ⟨f1, rfl⟩ : ∃ f1, f = f1 + 1 := ⟨f - 1, by omega⟩
      show parseFieldsVal f1 k (parseVal f1 (jsonChars v ++ '\x7d' :: tail)) acc =
        some (Json.obj (acc ++ [(k, v)]), tail)
      have hv := (IH (3 * (jsonChars v).length) (by omega)).1
      rw [hv v ('\x7d' :: tail) f1 (hwf (k, v) (by simp)) le_rfl (by omega) rfl]
      obtain ⟨f2, rfl⟩ : ∃ f2, f1 = f2 + 1 := ⟨f1 - 1, by omega⟩
      show some (Json.obj (upsertField k v acc), tail) = some (Json.obj (acc ++ [(k, v)]), tail)
      rw [upsertField_notMem k v acc hknotin]
    | cons f1 fs1 =>
      have ho : objChars ((k, v) :: f1 :: fs1) =
          strChars k ++ ':' :: (jsonChars v ++ ',' :: objChars (f1 :: fs1)) := by
        simp only [objChars]
        simp
      have hlo : (objChars ((k, v) :: f1 :: fs1)).length =
          (strChars k).length + 1 + (jsonChars v).length + 1 +
            (objChars (f1 :: fs1)).length := by
        rw [ho]
        simp only [List.length_append, List.length_cons]
        omega
      rw [ho]
      have hin : (strChars k ++ ':' :: (jsonChars v ++ ',' :: objChars (f1 :: fs1))) ++
            '\x7d' :: tail =
          '"' :: ((k.data.map escapeChar).flatten ++
            '"' :: (':' :: (jsonChars v ++
              ',' :: (objChars (f1 :: fs1) ++ '\x7d' :: tail)))) := by
        simp [strChars]
      rw [hin]
      show parseFieldsKey f
          (parseStringBody
            (((k.data.map escapeChar).flatten ++
              '"' :: (':' :: (jsonChars v ++
                ',' :: (objChars (f1 :: fs1) ++ '\x7d' :: tail)))).length + 1) []
            ((k.data.map escapeChar).flatten ++
              '"' :: (':' :: (jsonChars v ++
                ',' :: (objChars (f1 :: fs1) ++ '\x7d' :: tail))))) acc =
        some (Json.obj (acc ++ (k, v) :: f1 :: fs1), tail)
      have hfl : k.data.length <
          ((k.data.map escapeChar).flatten ++
            '"' :: (':' :: (jsonChars v ++
              ',' :: (objChars (f1 :: fs1) ++ '\x7d' :: tail)))).length + 1 := by
        simp only [List.length_append, List.length_cons]
        omega
      rw [parseStringBody_escape k.data _ []
        (':' :: (jsonChars v ++ ',' :: (objChars (f1 :: fs1) ++ '\x7d' :: tail))) hfl]
      obtain ⟨f1a, rfl⟩ : ∃ f1a, f = f1a + 1 := ⟨f - 1, by omega⟩
      show parseFieldsVal f1a k
          (parseVal f1a (jsonChars v ++ ',' :: (objChars (f1 :: fs1) ++ '\x7d' :: tail))) acc =
        some (Json.obj (acc ++ (k, v) :: f1 :: fs1), tail)
      have hv := (IH (3 * (jsonChars v).length) (by omega)).1
      rw [hv v (',' :: (objChars (f1 :: fs1) ++ '\x7d' :: tail)) f1a (hwf (k, v) (by simp))
        le_rfl (by omega) rfl]
      obtain ⟨f2, rfl⟩ : ∃ f2, f1a = f2 + 1 := ⟨f1a - 1, by omega⟩
      show parseFields f2 (objChars (f1 :: fs1) ++ '\x7d' :: tail) (upsertField k v acc) =
        some (Json.obj (acc ++ (k, v) :: f1 :: fs1), tail)
      rw [upsertField_notMem k v acc hknotin]
      have hfds := (IH (3 * (objChars (f1 :: fs1)).length + 2) (by omega)).2.2
      have hnd2 : (((acc ++ [(k, v)]) ++ f1 :: fs1).map Prod.fst).Nodup := by
        simpa [List.append_assoc] using hnd
      have hrec := hfds f1 fs1 (acc ++ [(k, v)]) tail f2 hnd2
        (fun kv hkv => hwf kv (List.mem_cons_of_mem (k, v) hkv)) le_rfl (by omega)
      rw [hrec]
      simp

theorem jsonParse_stringify (v : Json) (h : Json.WF v) : jsonParse (jsonStringify v) = some v := by
  have hr := (parse_stringify_round (3 * (jsonChars v).length)).1 v []
    (3 * (jsonChars v).length + 3) h le_rfl (by omega) rfl
  rw [List.append_nil] at hr
  unfold jsonParse jsonStringify
  rw [show (String.mk (jsonChars v)).data = jsonChars v from rfl]
  rw [hr]

theorem drainRow_round (id0 : Nat) (ty ac : String) (p : Json) (t : Nat) (h : Json.WF p) :
    offlineCache.drainRow
      { id := id0, type := ty, action := ac, payload := jsonStringify p, created_at := t } =
      some { id := id0, type := ty, action := ac, payload := p, created_at := t } := by
  unfold offlineCache.drainRow
  rw [jsonParse_stringify p h]
  rfl

theorem insertByTime_perm (r : QueueRow) (l : List QueueRow) :
    (offlineCache.insertByTime r l).Perm (r :: l) := by
  induction l with
  | nil => exact List.Perm.refl _
  | cons x xs ih =>
    simp only [offlineCache.insertByTime]
    by_cases h : r.created_at ≤ x.created_at
    · rw [if_pos h]
    · rw [if_neg h]
      exact (ih.cons x).trans (List.Perm.swap r x xs)

theorem sortByTime_perm (l : List QueueRow) : (offlineCache.sortByTime l).Perm l := by
  induction l with
  | nil => exact List.Perm.refl _
  | cons x xs ih =>
    exact (insertByTime_perm x (offlineCache.sortByTime xs)).trans (ih.cons x)

theorem insertByTime_sorted (r : QueueRow) (l : List QueueRow)
    (h : l.Pairwise (fun a b => a.created_at ≤ b.created_at)) :
    (offlineCache.insertByTime r l).Pairwise (fun a b => a.created_at ≤ b.created_at) := by
  induction l with
  | nil => simp [offlineCache.insertByTime]
  | cons x xs ih =>
    obtain ⟨hx, hxs⟩ := List.pairwise_cons.mp h
    simp only [offlineCache.insertByTime]
    by_cases hle : r.created_at ≤ x.created_at
    · rw [if_pos hle]
      refine List.pairwise_cons.mpr ⟨?_, h⟩
      intro b hb
      rcases List.mem_cons.mp hb with rfl | hb2
      · exact hle
      · exact le_trans hle (hx b hb2)
    · rw [if_neg hle]
      refine List.pairwise_cons.mpr ⟨?_, ih hxs⟩
      intro b hb
      have hmem := (insertByTime_perm r xs).mem_iff.mp hb
      rcases List.mem_cons.mp hmem with rfl | hb2
      · omega
      · exact hx b hb2

theorem sortByTime_sorted (l : List QueueRow) :
    (offlineCache.sortByTime l).Pairwise (fun a b => a.created_at ≤ b.created_at) := by
  induction l with
  | nil => simp [offlineCache.sortByTime]
  | cons x xs ih => exact insertByTime_sorted x _ ih

theorem sorted_perm_eq : ∀ (m l : List QueueRow), l.Perm m →
    l.Pairwise (fun a b => a.created_at ≤ b.created_at) →
    m.Pairwise (fun a b => a.created_at < b.created_at) → l = m := by
  intro m
  induction m with
  | nil =>
    intro l hperm _ _
    exact hperm.eq_nil
  | cons b m' ih =>
    intro l hperm hl hm
    cases l with
    | nil =>
      have h0 := hperm.length_eq
      simp at h0
    | cons a l' =>
      obtain ⟨hbm, hm'⟩ := List.pairwise_cons.mp hm
      obtain ⟨hal, hl'⟩ := List.pairwise_cons.mp hl
      have hab : a = b := by
        have ha_mem : a ∈ b :: m' := hperm.mem_iff.mp (by simp)
        have hb_mem : b ∈ a :: l' := hperm.mem_iff.mpr (by simp)
        rcases List.mem_cons.mp ha_mem with rfl | ha2
        · rfl
        · rcases List.mem_cons.mp hb_mem with rfl | hb2
          · rfl
          · have h1 := hbm a ha2
            have h2 := hal b hb2
            omega
      subst hab
      have hperm' := hperm.cons_inv
      rw [ih l' hperm' hl' hm']

theorem parseRows_all (l : List QueueRow) (h : ∀ r ∈ l, (offlineCache.drainRow r).isSome) :
    ∃ out, offlineCache.parseRows l = some out ∧
      ∀ r ∈ l, ∀ i, offlineCache.drainRow r = some i → i ∈ out := by
  induction l with
  | nil => exact ⟨[], rfl, by simp⟩
  | cons r rs ih =>
    obtain ⟨i0, hi0⟩ := Option.isSome_iff_exists.mp (h r (by simp))
    obtain ⟨out, hout, hmem⟩ := ih (fun r2 hr2 => h r2 (by simp [hr2]))
    refine ⟨i0 :: out, ?_, ?_⟩
    · simp [offlineCache.parseRows, hi0, hout]
    · intro r2 hr2 i hi
      rcases List.mem_cons.mp hr2 with rfl | hr2b
      · rw [hi0] at hi
        simp only [Option.some.injEq] at hi
        subst hi
        simp
      · exact List.mem_cons_of_mem _ (hmem r2 hr2b i hi)

theorem parseRows_some_all : ∀ (l : List QueueRow) (out : List offlineCache.DrainedItem),
    offlineCache.parseRows l = some out → ∀ r ∈ l, (offlineCache.drainRow r).isSome := by
  intro l
  induction l with
  | nil => intro out _ r hr; simp at hr
  | cons r0 rs ih =>
    intro out hout r hr
    simp only [offlineCache.parseRows] at hout
    cases hd : offlineCache.drainRow r0 with
    | none => rw [hd] at hout; simp at hout
    | some i0 =>
      rw [hd] at hout
      cases hp : offlineCache.parseRows rs with
      | none => rw [hp] at hout; simp at hout
      | some is =>
        rcases List.mem_cons.mp hr with rfl | hr2
        · simp [hd]
        · exact ih is hp r hr2

theorem length_filter_split (p : offlineCache.DrainedItem → Bool)
    (l : List offlineCache.DrainedItem) :
    (l.filter p).length + (l.filter (fun a => !p a)).length = l.length := by
  induction l with
  | nil => rfl
  | cons a l ih =>
    by_cases h : p a <;> simp [List.filter_cons, h] <;> omega

theorem syncLoop_spec (api : RemoteApi) (items : List offlineCache.DrainedItem) :
    ∀ (s : Store) (res : SyncResult) (calls : List ApiCall),
    SyncManager.syncLoop api items s res calls =
      ({ success := res.success + (items.filter (dispatchOk api)).length,
         failed := res.failed + (items.filter (fun i => !dispatchOk api i)).length,
         errors := res.errors ++ items.filterMap (failMsg api) },
       { s with queue := s.queue.filter (fun r => !((okIds api items).contains r.id)) },
       calls ++ (items.map (dispatchCalls api)).flatten) := by
  induction items with
  | nil =>
    intro s res calls
    simp [SyncManager.syncLoop, okIds]
  | cons it rest ih =>
    intro s res calls
    simp only [SyncManager.syncLoop]
    cases hp : SyncManager.processQueueItem api it with
    | mk cs outcome =>
      have hcalls : dispatchCalls api it = cs := by simp [dispatchCalls, hp]
      cases outcome with
      | ok u =>
        have hOk : dispatchOk api it = true := by simp [dispatchOk, hp]
        have hmsg : failMsg api it = none := by simp [failMsg, hp]
        show SyncManager.syncLoop api rest (offlineCache.removeSyncQueueItem it.id s)
          { res with success := res.success + 1 } (calls ++ cs) = _
        rw [ih (offlineCache.removeSyncQueueItem it.id s)
          { res with success := res.success + 1 } (calls ++ cs)]
        simp only [Prod.mk.injEq, SyncResult.mk.injEq]
        refine ⟨⟨?_, ?_, ?_⟩, ?_, ?_⟩
        · simp [List.filter_cons, hOk]
          omega
        · simp [List.filter_cons, hOk]
        · simp [List.filterMap_cons, hmsg]
        · simp only [offlineCache.removeSyncQueueItem, List.filter_filter]
          congr 1
          apply List.filter_congr
          intro r _
          simp [okIds, List.filter_cons, hOk, List.contains_cons, Bool.not_or, bne,
            Bool.and_comm]
        · simp [hcalls, List.append_assoc]
      | error e =>
        have hOk : dispatchOk api it = false := by simp [dispatchOk, hp]
        have hmsg : failMsg api it = some e.toMessage := by simp [failMsg, hp]
        show SyncManager.syncLoop api rest s
          { res with
            failed := res.failed + 1
            errors := res.errors ++ [e.toMessage] } (calls ++ cs) = _
        rw [ih s
          { res with
            failed := res.failed + 1
            errors := res.errors ++ [e.toMessage] } (calls ++ cs)]
        simp only [Prod.mk.injEq, SyncResult.mk.injEq]
        refine ⟨⟨?_, ?_, ?_⟩, ?_, ?_⟩
        · simp [List.filter_cons, hOk]
        · simp [List.filter_cons, hOk]
          omega
        · simp [List.filterMap_cons, hmsg]
        · congr 1
          apply List.filter_congr
          intro r _
          simp [okIds, List.filter_cons, hOk]
        · simp [hcalls, List.append_assoc]

theorem syncAll_guides (api : RemoteApi) (s : Store) (r : SyncResult) (s2 : Store)
    (cs : List ApiCall) (h : SyncManager.syncAll api s = some (r, s2, cs)) :
    s2.guides = s.guides := by
  unfold SyncManager.syncAll at h
  cases hq : offlineCache.getSyncQueue s with
  | none => rw [hq] at h; simp at h
  | some items =>
    rw [hq] at h
    simp only [Option.map_some'] at h
    rw [syncLoop_spec api items s { success := 0, failed := 0, errors := [] } []] at h
    simp only [Option.some.injEq, Prod.mk.injEq] at h
    rw [← h.2.1]

theorem failMsg_length (api : RemoteApi) (items : List offlineCache.DrainedItem) :
    (items.filterMap (failMsg api)).length =
      (items.filter (fun i => !dispatchOk api i)).length := by
  induction items with
  | nil => rfl
  | cons it rest ih =>
    cases hp : (SyncManager.processQueueItem api it).2 with
    | ok u =>
      have h1 : failMsg api it = none := by simp [failMsg, hp]
      have h2 : dispatchOk api it = true := by simp [dispatchOk, hp]
      simp [List.filterMap_cons, List.filter_cons, h1, h2, ih]
    | error e =>
      have h1 : failMsg api it = some e.toMessage := by simp [failMsg, hp]
      have h2 : dispatchOk api it = false := by simp [dispatchOk, hp]
      simp [List.filterMap_cons, List.filter_cons, h1, h2, ih]

theorem reachable_nodup (s : Store) (h : ReachableStore s) :
    (s.guides.map (fun r => r.id)).Nodup := by
  induction h with
  | empty => simp [emptyStore]
  | save g now s hs ih =>
    simp only [offlineCache.saveGuide, List.map_append]
    rw [List.nodup_append]
    refine ⟨((List.filter_sublist _).map _).nodup ih, by simp, ?_⟩
    intro a ha hb
    simp only [List.map_cons, List.map_nil, List.mem_cons, List.not_mem_nil, or_false] at hb
    simp only [List.mem_map, List.mem_filter] at ha
    obtain ⟨r, ⟨_, hfil⟩, hra⟩ := ha
    rw [hb] at hra
    simp only [guideToRow] at hra
    simp [hra] at hfil
  | deleteGuide id s hs ih =>
    exact ((List.filter_sublist _).map _).nodup ih
  | deleteAllGuides s hs ih => simp [offlineCache.deleteAllGuides]
  | addQueue ty ac p now s hs ih => simpa [offlineCache.addToSyncQueue] using ih
  | removeQueue id s hs ih => simpa [offlineCache.removeSyncQueueItem] using ih
  | clearQueue s hs ih => simpa [offlineCache.clearSyncQueue] using ih
  | sync api s r s2 cs hs heq ih =>
    rw [syncAll_guides api s r s2 cs heq]
    exact ih

theorem temp_id_inj (a b : Nat)
    (h : "temp_" ++ String.mk (natChars a) = "temp_" ++ String.mk (natChars b)) : a = b := by
  have h1 : ("temp_" ++ String.mk (natChars a)).data = ("temp_").data ++ natChars a := rfl
  have h2 : ("temp_" ++ String.mk (natChars b)).data = ("temp_").data ++ natChars b := rfl
  have hd : ("temp_").data ++ natChars a = ("temp_").data ++ natChars b := by
    rw [← h1, ← h2, h]
  exact natChars_inj a b (List.append_cancel_left hd)

/-- C1 (amended): dispatching a pending change whose type string is not one
of position, bookmark, note throws an Error whose message names the
unrecognized type; but a change with a recognized type and an action outside
the dispatch table is silently ignored -- the dispatch completes without
issuing any remote call and without an error. -/
theorem C1_dispatch_unknown_type (api : RemoteApi) (item : offlineCache.DrainedItem) :
    (item.type ≠ "position" → item.type ≠ "bookmark" → item.type ≠ "note" →
      SyncManager.processQueueItem api item =
        ([], Except.error (Thrown.errObj ("Unknown sync type: " ++ item.type)))) ∧
    (item.type = "position" → item.action ≠ "update" →
      SyncManager.processQueueItem api item = ([], Except.ok ())) ∧
    (item.type = "bookmark" → item.action ≠ "create" → item.action ≠ "delete" →
      SyncManager.processQueueItem api item = ([], Except.ok ())) ∧
    (item.type = "note" → item.action ≠ "create" → item.action ≠ "update" →
      item.action ≠ "delete" → SyncManager.processQueueItem api item = ([], Except.ok ())) := by
  refine ⟨?_, ?_, ?_, ?_⟩
  · intro h1 h2 h3
    simp [SyncManager.processQueueItem, h1, h2, h3]
  · intro h1 h2
    simp [SyncManager.processQueueItem, h1, h2]
  · intro h1 h2 h3
    have hne : item.type ≠ "position" := by rw [h1]; decide
    simp [SyncManager.processQueueItem, h1, h2, h3, hne]
  · intro h1 h2 h3 h4
    have hne : item.type ≠ "position" := by rw [h1]; decide
    have hne2 : item.type ≠ "bookmark" := by rw [h1]; decide
    simp [SyncManager.processQueueItem, h1, h2, h3, h4, hne, hne2]

/-- C1 counterexample: the claim as stated is false on the code. The change
(type position, action delete) is outside the six-entry dispatch table, yet
dispatching it completes without an error and without consulting the remote
API (the result is independent of a remote API that rejects every call),
instead of throwing. -/
theorem C1_counterexample_position_delete_silent :
    SyncManager.processQueueItem apiRejectAll itemPositionDelete = ([], Except.ok ()) := rfl

/-- C1 witness: the amended theorem applied to the spec example, a change of
type bogus, which throws the Unknown sync type error naming bogus. -/
theorem C1_witness :
    SyncManager.processQueueItem apiRejectAll itemBogus =
      ([], Except.error (Thrown.errObj ("Unknown sync type: bogus"))) :=
  (C1_dispatch_unknown_type apiRejectAll itemBogus).1 (by decide) (by decide) (by decide)

/-- C2: syncAll processes every drained entry in drain order with no
fail-fast: the returned success count is the number of entries whose dispatch
resolved, the failed count is the number whose dispatch rejected, the errors
list collects the failure messages in processing order, and the store
afterwards retains exactly the rows whose dispatch did not succeed (succeeded
entries are removed by id). -/
theorem C2_syncAll_partial_failure (api : RemoteApi) (s : Store)
    (items : List offlineCache.DrainedItem)
    (h : offlineCache.getSyncQueue s = some items) :
    SyncManager.syncAll api s =
      some ({ success := (items.filter (dispatchOk api)).length,
              failed := (items.filter (fun i => !dispatchOk api i)).length,
              errors := items.filterMap (failMsg api) },
            { s with queue := s.queue.filter (fun r => !((okIds api items).contains r.id)) },
            (items.map (dispatchCalls api)).flatten) := by
  unfold SyncManager.syncAll
  rw [h]
  simp only [Option.map_some']
  rw [syncLoop_spec api items s { success := 0, failed := 0, errors := [] } []]
  simp

/-- C2 witness: three queued position updates where exactly the second
dispatch rejects; syncAll returns success 2, failed 1, one error message, and
the queue afterwards holds only the second row. -/
theorem C2_witness :
    SyncManager.syncAll apiFailG2 storeThree =
      some ({ success := 2, failed := 1, errors := ["API error"] },
            Store.mk []
              [QueueRow.mk 2 ("position") ("update")
                (jsonStringify (positionPayload ("g2") 200)) 20] 4,
            [ApiCall.updatePosition (some (Json.str ("g1"))) (some (Json.num 100)),
             ApiCall.updatePosition (some (Json.str ("g2"))) (some (Json.num 200)),
             ApiCall.updatePosition (some (Json.str ("g3"))) (some (Json.num 300))]) := by
  have h := C2_syncAll_partial_failure apiFailG2 storeThree itemsThree rfl
  exact h.trans (by rfl)

/-- C5: the errors list syncAll returns is exactly the list of messages of
the failed dispatches, where a rejected dispatch contributes its Error
message when the thrown value is a proper Error object and the fixed fallback
string Unknown error when it is not (e.g. a raw string); hence the errors
list is always a list of readable strings. -/
theorem C5_nonError_fallback (api : RemoteApi) (s : Store)
    (items : List offlineCache.DrainedItem) (r : SyncResult) (s2 : Store) (cs : List ApiCall)
    (h : offlineCache.getSyncQueue s = some items)
    (h2 : SyncManager.syncAll api s = some (r, s2, cs)) :
    r.errors = items.filterMap (failMsg api) ∧
    (∀ i ∈ items, ∀ e, (SyncManager.processQueueItem api i).2 = Except.error e →
      failMsg api i = some (Thrown.toMessage e)) ∧
    (∀ v : Json, Thrown.toMessage (Thrown.rawVal v) = "Unknown error") ∧
    (∀ m : String, Thrown.toMessage (Thrown.errObj m) = m) := by
  refine ⟨?_, ?_, fun _ => rfl, fun _ => rfl⟩
  · unfold SyncManager.syncAll at h2
    rw [h] at h2
    simp only [Option.map_some'] at h2
    rw [syncLoop_spec api items s { success := 0, failed := 0, errors := [] } []] at h2
    simp only [Option.some.injEq, Prod.mk.injEq] at h2
    rw [← h2.1]
    simp
  · intro i _ e he
    simp [failMsg, he]

/-- C5 witness: a single queued change whose remote call rejects with the
plain string oops; the errors list contains Unknown error, not oops. -/
theorem C5_witness :
    SyncManager.syncAll apiRejectOops storeOne =
      some ({ success := 0, failed := 1, errors := ["Unknown error"] },
            storeOne,
            [ApiCall.updatePosition (some (Json.str ("g1"))) (some (Json.num 100))]) ∧
    (["Unknown error"] : List String) = itemsOne.filterMap (failMsg apiRejectOops) := by
  have h := (C5_nonError_fallback apiRejectOops storeOne itemsOne
    { success := 0, failed := 1, errors := ["Unknown error"] } storeOne
    [ApiCall.updatePosition (some (Json.str ("g1"))) (some (Json.num 100))] rfl (by rfl)).1
  exact ⟨by rfl, h⟩

/-- C9: for every drained queue the result of syncAll satisfies
success + failed = number of drained entries and the errors list has exactly
failed elements; on an empty queue syncAll returns zero counts, an empty
errors list, an unchanged store, and issues no remote call. -/
theorem C9_result_accounting (api : RemoteApi) (s : Store)
    (items : List offlineCache.DrainedItem) (r : SyncResult) (s2 : Store) (cs : List ApiCall)
    (h : offlineCache.getSyncQueue s = some items)
    (h2 : SyncManager.syncAll api s = some (r, s2, cs)) :
    r.success + r.failed = items.length ∧ r.errors.length = r.failed ∧
    (s.queue = [] → r = { success := 0, failed := 0, errors := [] } ∧ s2 = s ∧ cs = []) := by
  unfold SyncManager.syncAll at h2
  rw [h] at h2
  simp only [Option.map_some'] at h2
  rw [syncLoop_spec api items s { success := 0, failed := 0, errors := [] } []] at h2
  simp only [Option.some.injEq, Prod.mk.injEq] at h2
  obtain ⟨hr, hs2, hcs⟩ := h2
  refine ⟨?_, ?_, ?_⟩
  · rw [← hr]
    simpa using length_filter_split (dispatchOk api) items
  · rw [← hr]
    simpa using failMsg_length api items
  · intro hq
    have hitems : items = [] := by
      unfold offlineCache.getSyncQueue at h
      rw [hq] at h
      simpa [offlineCache.sortByTime, offlineCache.parseRows] using h.symm
    subst hitems
    refine ⟨by rw [← hr]; rfl, ?_, by rw [← hcs]; rfl⟩
    rw [← hs2]
    simp [okIds, List.contains]

/-- C9 witness: syncAll on a fresh empty store under a remote API that
rejects everything. -/
theorem C9_witness :
    SyncManager.syncAll apiRejectAll emptyStore =
      some ({ success := 0, failed := 0, errors := [] }, emptyStore, []) ∧
    (0 : Nat) + 0 = ([] : List offlineCache.DrainedItem).length := by
  have h := C9_result_accounting apiRejectAll emptyStore []
    { success := 0, failed := 0, errors := [] } emptyStore [] rfl rfl
  exact ⟨rfl, h.1⟩

/-- C10: in every store state and for every guide id, isGuideDownloaded
returns true exactly when getGuide returns a guide rather than null; since
this equivalence holds of every state, every store operation preserves it. -/
theorem C10_isDownloaded_iff_getGuide (s : Store) (id : String) :
    offlineCache.isGuideDownloaded id s = true ↔ (offlineCache.getGuide id s).isSome := by
  unfold offlineCache.isGuideDownloaded offlineCache.getGuide
  simp only [decide_eq_true_eq, Option.isSome_map']
  rw [List.length_pos, List.find?_isSome]
  constructor
  · intro h
    rcases List.exists_mem_of_ne_nil _ h with ⟨r, hr⟩
    exact ⟨r, (List.mem_filter.mp hr).1, (List.mem_filter.mp hr).2⟩
  · rintro ⟨r, hr, hp⟩ hnil
    have hmem : r ∈ s.guides.filter (fun r => r.id == id) := List.mem_filter.mpr ⟨hr, hp⟩
    simp [hnil] at hmem

/-- C8: deleting a sync-queue row or a cached guide by an id that is not
present leaves the store unchanged (and, the operations being total, throws
nothing); deleting the same id twice equals deleting it once. -/
theorem C8_deletion_idempotent :
    (∀ (s : Store) (qid : Nat), (∀ r ∈ s.queue, r.id ≠ qid) →
      offlineCache.removeSyncQueueItem qid s = s) ∧
    (∀ (s : Store) (gid : String), (∀ r ∈ s.guides, r.id ≠ gid) →
      offlineCache.deleteGuide gid s = s) ∧
    (∀ (s : Store) (qid : Nat),
      offlineCache.removeSyncQueueItem qid (offlineCache.removeSyncQueueItem qid s) =
        offlineCache.removeSyncQueueItem qid s) ∧
    (∀ (s : Store) (gid : String),
      offlineCache.deleteGuide gid (offlineCache.deleteGuide gid s) =
        offlineCache.deleteGuide gid s) := by
  refine ⟨?_, ?_, ?_, ?_⟩
  · intro s qid h
    unfold offlineCache.removeSyncQueueItem
    rw [List.filter_eq_self.mpr]
    intro r hr
    simpa using h r hr
  · intro s gid h
    unfold offlineCache.deleteGuide
    rw [List.filter_eq_self.mpr]
    intro r hr
    simpa using h r hr
  · intro s qid
    unfold offlineCache.removeSyncQueueItem
    simp [List.filter_filter]
  · intro s gid
    unfold offlineCache.deleteGuide
    simp [List.filter_filter]

/-- C8 witness: removing an absent queue id and an absent guide id from
concrete stores leaves them unchanged. -/
theorem C8_witness :
    offlineCache.removeSyncQueueItem 99 storeOne = storeOne ∧
    offlineCache.deleteGuide ("zzz") (offlineCache.saveGuide guideG1 5 emptyStore) =
      offlineCache.saveGuide guideG1 5 emptyStore :=
  ⟨C8_deletion_idempotent.1 storeOne 99 (by decide),
   C8_deletion_idempotent.2.1 (offlineCache.saveGuide guideG1 5 emptyStore) ("zzz") (by decide)⟩

/-- C3 (amended): an offline create mutation enqueues exactly one pending
change through the Orchestrator and resolves with an optimistic result,
independently of the remote API (no remote call is made); the optimistic
result carries the placeholder id temp_ followed by the timestamp, which is
distinguishable from server ids by its prefix; two offline creates that
observe distinct Date.now() values receive distinct placeholder ids (with
equal timestamps the ids collide). -/
theorem C3_offline_create_optimistic
    (remB : String → CreateBookmarkInput → Except Thrown Bookmark)
    (remN : String → CreateNoteInput → Except Thrown Note)
    (now now2 : Nat) (g g2 : String) (db : CreateBookmarkInput) (dn : CreateNoteInput)
    (s s2 : Store) (hnow : now ≠ now2) :
    useCreateBookmark false now remB g db s =
      Except.ok
        ({ id := "temp_" ++ String.mk (natChars now), guide_id := g, position := db.position,
           name := db.name, page_reference := db.page_reference,
           is_last_read := db.is_last_read.getD false, created_at := now },
         Store.mk s.guides
           (s.queue ++ [QueueRow.mk s.nextQueueId ("bookmark") ("create")
             (jsonStringify (createBookmarkPayload g db)) now])
           (s.nextQueueId + 1)) ∧
    useCreateNote false now2 remN g2 dn s2 =
      Except.ok
        ({ id := "temp_" ++ String.mk (natChars now2), guide_id := g2, position := dn.position,
           content := dn.content, created_at := now2, updated_at := now2 },
         Store.mk s2.guides
           (s2.queue ++ [QueueRow.mk s2.nextQueueId ("note") ("create")
             (jsonStringify (createNotePayload g2 dn)) now2])
           (s2.nextQueueId + 1)) ∧
    "temp_" ++ String.mk (natChars now) ≠ "temp_" ++ String.mk (natChars now2) := by
  refine ⟨rfl, rfl, ?_⟩
  intro hcontra
  exact hnow (temp_id_inj now now2 hcontra)

/-- C3 counterexample: two distinct offline create calls (different guide
ids, different inputs, different starting stores) that observe the same
Date.now() value receive the same placeholder id temp_5, so the claimed
uniqueness over every pair of distinct offline creates fails. -/
theorem C3_counterexample_id_collision :
    bkResultId (useCreateBookmark false 5 remoteBookmarkStub ("g1") bookmarkInputCh1 emptyStore) =
      some ("temp_5") ∧
    bkResultId (useCreateBookmark false 5 remoteBookmarkStub ("g2") bookmarkInputCh2 storeOne) =
      some ("temp_5") :=
  ⟨rfl, rfl⟩

/-- C3 witness: the amended theorem at the spec end-to-end inputs, one
bookmark create at time 100 and one note create at time 200. -/
theorem C3_witness :
    useCreateBookmark false 100 remoteBookmarkStub ("g1") bookmarkInputCh1 emptyStore =
      Except.ok
        ({ id := "temp_100", guide_id := "g1", position := 100,
           name := some ("Ch.1"), page_reference := none, is_last_read := false,
           created_at := 100 },
         Store.mk []
           [QueueRow.mk 1 ("bookmark") ("create")
             (jsonStringify (createBookmarkPayload ("g1") bookmarkInputCh1)) 100] 2) ∧
    ("temp_100" : String) ≠ "temp_200" := by
  have h := C3_offline_create_optimistic remoteBookmarkStub remoteNoteStub 100 200
    ("g1") ("g2") bookmarkInputCh1 noteInputA emptyStore emptyStore (by decide)
  exact ⟨h.1, h.2.2⟩

/-- C4: payload round-trip fidelity. JSON.parse inverts JSON.stringify on
every well-formed payload value, and consequently enqueueing any such payload
onto any queue whose rows drain successfully and then draining yields an
entry, at the freshly assigned row id, whose payload is structurally equal to
the original. -/
theorem C4_payload_roundtrip (ty ac : String) (p : Json) (hwf : Json.WF p) (now : Nat)
    (s : Store) (items : List offlineCache.DrainedItem)
    (h : offlineCache.getSyncQueue s = some items) :
    jsonParse (jsonStringify p) = some p ∧
    ∃ items2,
      offlineCache.getSyncQueue (offlineCache.addToSyncQueue ty ac p now s) = some items2 ∧
      ({ id := s.nextQueueId, type := ty, action := ac, payload := p, created_at := now } :
        offlineCache.DrainedItem) ∈ items2 := by
  refine ⟨jsonParse_stringify p hwf, ?_⟩
  have hall : ∀ r ∈ offlineCache.sortByTime
      (s.queue ++ [QueueRow.mk s.nextQueueId ty ac (jsonStringify p) now]),
      (offlineCache.drainRow r).isSome := by
    intro r hr
    have hmem := (sortByTime_perm _).mem_iff.mp hr
    rcases List.mem_append.mp hmem with hin | hin
    · exact parseRows_some_all _ items h r ((sortByTime_perm s.queue).mem_iff.mpr hin)
    · simp only [List.mem_singleton] at hin
      subst hin
      rw [drainRow_round s.nextQueueId ty ac p now hwf]
      rfl
  obtain ⟨out, hout, hmem⟩ := parseRows_all _ hall
  refine ⟨out, hout, ?_⟩
  exact hmem _ ((sortByTime_perm _).mem_iff.mpr (by simp))
    _ (drainRow_round s.nextQueueId ty ac p now hwf)

/-- C4 witness: the round-trip at a concrete bookmark payload enqueued on a
fresh store. -/
theorem C4_witness :
    Json.WF (positionPayload ("g1") 100) ∧
    jsonParse (jsonStringify (positionPayload ("g1") 100)) =
      some (positionPayload ("g1") 100) := by
  have hwf : Json.WF (positionPayload ("g1") 100) := by
    refine Json.WF.obj _ (by decide) ?_
    intro kv hkv
    simp only [positionPayload, List.mem_cons, List.not_mem_nil, or_false] at hkv
    rcases hkv with rfl | rfl
    · exact Json.WF.str _
    · exact Json.WF.num _
  exact ⟨hwf,
    (C4_payload_roundtrip ("bookmark") ("create") _ hwf 10 emptyStore [] rfl).1⟩

/-- C6: for three queued entries with strictly increasing creation
timestamps, stored in any internal order (any permutation), draining returns
exactly the three entries ordered oldest first; the drain itself is a pure
SELECT over the store and leaves the queue untouched by construction. -/
theorem C6_drain_fifo (s : Store) (ra rb rc : QueueRow)
    (ia ib ic : offlineCache.DrainedItem)
    (hperm : s.queue.Perm [ra, rb, rc])
    (ht1 : ra.created_at < rb.created_at) (ht2 : rb.created_at < rc.created_at)
    (ha : offlineCache.drainRow ra = some ia) (hb : offlineCache.drainRow rb = some ib)
    (hc : offlineCache.drainRow rc = some ic) :
    offlineCache.getSyncQueue s = some [ia, ib, ic] := by
  have hsorted := sortByTime_sorted s.queue
  have hperm2 : (offlineCache.sortByTime s.queue).Perm [ra, rb, rc] :=
    (sortByTime_perm _).trans hperm
  have heq : offlineCache.sortByTime s.queue = [ra, rb, rc] := by
    apply sorted_perm_eq [ra, rb, rc] _ hperm2 hsorted
    refine List.pairwise_cons.mpr ⟨?_, List.pairwise_cons.mpr ⟨?_, by simp⟩⟩
    · intro b hbmem
      rcases List.mem_cons.mp hbmem with rfl | hbmem2
      · exact ht1
      · simp only [List.mem_singleton] at hbmem2
        subst hbmem2
        omega
    · intro b hbmem
      simp only [List.mem_singleton] at hbmem
      subst hbmem
      exact ht2
  unfold offlineCache.getSyncQueue
  rw [heq]
  simp [offlineCache.parseRows, ha, hb, hc]

/-- C6 witness: three concrete rows with timestamps 10 < 20 < 30 stored in
scrambled order drain oldest first. -/
theorem C6_witness :
    offlineCache.getSyncQueue storeScrambled =
      some [offlineCache.DrainedItem.mk 1 ("position") ("update") (positionPayload ("g1") 100) 10,
            offlineCache.DrainedItem.mk 2 ("bookmark") ("create") (positionPayload ("g2") 200) 20,
            offlineCache.DrainedItem.mk 3 ("note") ("delete") (positionPayload ("g3") 300) 30] :=
  C6_drain_fifo storeScrambled rowA rowB rowC _ _ _ (by decide) (by decide) (by decide)
    rfl rfl rfl

/-- C7: saving two guide snapshots with the same id and then reading that id
returns exactly the second snapshot, never a merge; and every store state
reachable through the cache operations holds at most one row per guide id. -/
theorem C7_upsert_unique :
    (∀ (s : Store) (g g2 : Guide) (now now2 : Nat), g2.id = g.id →
      offlineCache.getGuide g.id
        (offlineCache.saveGuide g2 now2 (offlineCache.saveGuide g now s)) = some g2) ∧
    (∀ s : Store, ReachableStore s → (s.guides.map (fun r => r.id)).Nodup) := by
  refine ⟨?_, fun s h => reachable_nodup s h⟩
  intro s g g2 now now2 hid
  unfold offlineCache.saveGuide offlineCache.getGuide
  have hnone : ((((s.guides.filter (fun r => r.id != g.id)) ++
      [guideToRow g now]).filter (fun r => r.id != g2.id)).find?
        (fun r => r.id == g.id)) = none := by
    rw [List.find?_eq_none]
    intro r hr
    have h2 := (List.mem_filter.mp hr).2
    simp only [bne_iff_ne, ne_eq] at h2
    rw [hid] at h2
    simpa using h2
  rw [List.find?_append, hnone]
  simp [guideToRow, rowToGuide, hid]
  rw [← hid]

/-- C7 witness: two snapshots of guide g1 saved in order; the read returns
the second snapshot, and a concrete reachable store has distinct guide ids. -/
theorem C7_witness :
    offlineCache.getGuide ("g1")
      (offlineCache.saveGuide guideG1v2 7 (offlineCache.saveGuide guideG1 5 emptyStore)) =
      some guideG1v2 ∧
    (((offlineCache.saveGuide guideG1 5 emptyStore).guides.map (fun r => r.id)).Nodup) :=
  ⟨C7_upsert_unique.1 emptyStore guideG1 guideG1v2 5 7 rfl,
   C7_upsert_unique.2 _ (ReachableStore.save guideG1 5 emptyStore ReachableStore.empty)⟩
